import Mathlib

/-!
# m17-demod: frame handlers of `apps/m17-demod.cpp`

A shallow embedding of the frame handlers of the M17 demodulator front end
(`to_packet`, `append_packet`, `dump_lsf`, `demodulate_audio`, `decode_packet`,
`decode_full_packet`, `decode_bert`, `handle_frame`, `Config::parse`, `main`)
and theorems about them.

Conventions.
* `uint8_t` values are natural numbers; where C++ narrows an `int` expression
  back to `uint8_t` the model reduces modulo 256, and `size_t` arithmetic is
  reduced modulo `2 ^ 64`.
* `std::array<T, N>` is a list; `a[i]` is `a[i]?`, so that a read outside the
  array makes the handler undefined (`none`).
* The module-level variables `display_lsf`, `noise_blanker`, `codec2`,
  `current_packet`, `packet_frame_counter`, `prbs` and the bytes written to
  `std::cout` form the record `State`.  Text written to `std::cerr` is not
  part of the state.
* Codec2 and the PRBS9 validator are external.  Each is represented by the
  history of the calls made to it; the PCM samples Codec2 produces are given
  by a function parameter `codec2_decode` of the history and the frame.
-/

namespace M17

/-! ## `boost::crc_optimal<16, poly, init, xorout, refin, refout>` -/

/-- Reverses the low `w` bits of `x`. -/
def reflect : Nat → Nat → Nat
  | 0, _ => 0
  | w + 1, x => (x % 2) * 2 ^ w + reflect w (x / 2)

/-- Shifts one bit through the 16-bit remainder register, most significant bit
first, with truncated polynomial `poly`. -/
def crc_shift (poly r : Nat) : Nat :=
  if r / 2 ^ 15 % 2 = 1 then (r * 2 % 2 ^ 16) ^^^ poly else r * 2 % 2 ^ 16

/-- Feeds one byte into the remainder register (`process_byte`). -/
def crc_process_byte (poly : Nat) (refin : Bool) (r b : Nat) : Nat :=
  (crc_shift poly)^[8] (r ^^^ ((if refin then reflect 8 b else b % 256) * 256))

/-- Feeds a block of bytes into the remainder register (`process_bytes`). -/
def crc_process_bytes (poly : Nat) (refin : Bool) (r : Nat) (data : List Nat) : Nat :=
  data.foldl (crc_process_byte poly refin) r

/-- The value reported for a remainder register (`checksum`). -/
def crc_checksum (xorout : Nat) (refout : Bool) (r : Nat) : Nat :=
  (if refout then reflect 16 r else r) ^^^ xorout

/-- The checksum of a freshly initialised 16-bit `crc_optimal` after
`process_bytes data`. -/
def crc_optimal_16 (poly init xorout : Nat) (refin refout : Bool) (data : List Nat) : Nat :=
  crc_checksum xorout refout (crc_process_bytes poly refin init data)

/-- The CRC `decode_packet` runs over the accumulated packet:
`boost::crc_optimal<16, 0x1021, 0xFFFF, 0xFFFF, true, true>`. -/
def packet_checksum (data : List Nat) : Nat :=
  crc_optimal_16 0x1021 0xFFFF 0xFFFF true true data

/-! ## Bit packing -/

/-- Loop variables of `to_packet` and `append_packet`. -/
structure PackLoop where
  result : List Nat
  out : Nat
  b : Nat
deriving DecidableEq, Repr

/-- One iteration of `for (auto c : in)`: `out = (out << 1) | c`, and every
eighth iteration pushes `out`. -/
def pack_step (s : PackLoop) (c : Nat) : PackLoop :=
  let out := ((s.out * 2) ||| c) % 256
  if s.b + 1 = 8 then
    { result := s.result ++ [out], out := 0, b := 0 }
  else
    { result := s.result, out := out, b := s.b + 1 }

/-- Function `to_packet`. -/
def to_packet (inp : List Nat) : List Nat :=
  (inp.foldl pack_step { result := [], out := 0, b := 0 }).result

/-- Function `append_packet`; returns the new contents of `result`. -/
def append_packet (result : List Nat) (inp : List Nat) : List Nat :=
  (inp.foldl pack_step { result := result, out := 0, b := 0 }).result

/-! ## Program state -/

/-- The module-level variables the frame handlers read and write, and the bytes
written to `std::cout`. -/
structure State where
  display_lsf : Bool
  noise_blanker : Bool
  /-- The frames passed to `codec2_decode` so far. -/
  codec2 : List (List Nat)
  current_packet : List Nat
  packet_frame_counter : Nat
  /-- The bits passed to `prbs.validate` so far. -/
  prbs : List Bool
  cout : List Nat
deriving DecidableEq, Repr

/-- Frame delivered to `handle_frame`: the tag `frame.type` with the buffer
that belongs to it. -/
inductive Frame where
  | LSF (lsf : List Nat)
  | LICH (lich : List Nat)
  | STREAM (stream : List Nat)
  | BASIC_PACKET (packet : List Nat)
  | FULL_PACKET (packet : List Nat)
  | BERT (bert : List Nat)
deriving DecidableEq, Repr

/-! ## Link setup frame -/

/-- The reads of `lsf[0]` to `lsf[29]` that `dump_lsf` makes for the summary it
prints to `std::cerr`. -/
def lsf_summary (lsf : List Nat) : Option Unit :=
  match lsf[29]? with
  | some _ => some ()
  | none => none

/-- Function `dump_lsf`. -/
def dump_lsf (st : State) (lsf : List Nat) : Option (Bool × State) := do
  let _ ← if st.display_lsf then lsf_summary lsf else some ()
  let st1 : State := { st with current_packet := [], packet_frame_counter := 0 }
  let type0 ← lsf[111]?
  if type0 = 0 then
    let hi ← lsf[109]?
    let lo ← lsf[110]?
    let packet_type := ((hi * 2) ||| lo) % 256
    match packet_type with
    | 1 => some (true, st1)
    | 2 => some (true, { st1 with current_packet := append_packet st1.current_packet lsf })
    | _ => some (true, { st1 with current_packet := append_packet st1.current_packet lsf })
  else
    some (true, st1)

/-! ## Voice stream -/

/-- The bytes `std::cout.write((const char*)buf.begin(), ...)` emits for the
16-bit samples `buf`, low byte first. -/
def pcm_bytes : List Int → List Nat
  | [] => []
  | s :: rest => (s % 256).toNat :: ((s / 256) % 256).toNat :: pcm_bytes rest

/-- The `n` bytes starting at `audio.begin() + off`. -/
def frame_at (audio : List Nat) (off n : Nat) : Option (List Nat) :=
  if off + n ≤ audio.length then some ((audio.drop off).take n) else none

/-- Function `demodulate_audio`.  `codec2_decode h bits` is the content of
`buf` after `codec2_decode(codec2, buf, bits)` when the frames `h` were decoded
before. -/
def demodulate_audio (codec2_decode : List (List Nat) → List Nat → List Int)
    (st : State) (audio : List Nat) (viterbi_cost : Int) : Option (Bool × State) := do
  let a0 ← audio[0]?
  let result : Bool := if viterbi_cost < 70 ∧ a0 &&& 0x80 ≠ 0 then false else true
  if st.noise_blanker = true ∧ viterbi_cost > 80 then
    let buf : List Int := List.replicate 160 0
    some (result, { st with cout := st.cout ++ pcm_bytes buf ++ pcm_bytes buf })
  else
    let bits1 ← frame_at audio 2 8
    let buf1 := codec2_decode st.codec2 bits1
    let bits2 ← frame_at audio 10 8
    let buf2 := codec2_decode (st.codec2 ++ [bits1]) bits2
    some (result, { st with codec2 := st.codec2 ++ [bits1, bits2],
                            cout := st.cout ++ pcm_bytes buf1 ++ pcm_bytes buf2 })

/-! ## Packet segments -/

/-- The loop `for (i = 0; i != n; ++i) current_packet.push_back(packet_segment[i])`,
returning the new contents of `current_packet`. -/
def push_segment (seg : List Nat) (current_packet : List Nat) : Nat → Option (List Nat)
  | 0 => some current_packet
  | n + 1 => do
    let cp ← push_segment seg current_packet n
    let x ← seg[n]?
    some (cp ++ [x])

/-- Function `decode_packet`.  Taking `&current_packet.front()` of an empty
accumulator is treated as harmless: the CRC then runs over zero bytes. -/
def decode_packet (st : State) (packet_segment : List Nat) : Option (Bool × State) := do
  let ctl ← packet_segment[25]?
  if ctl &&& 0x80 ≠ 0 then
    let packet_size := min ((ctl &&& 0x7F) >>> 2) 25
    let cp ← push_segment packet_segment st.current_packet packet_size
    let checksum := packet_checksum cp
    if checksum = 0x0f47 then
      some (true, { st with current_packet := cp })
    else
      some (false, { st with current_packet := cp })
  else
    let frame_number := (ctl &&& 0x7F) >>> 2
    if frame_number ≠ st.packet_frame_counter then
      some (false, st)
    else
      let counter := (st.packet_frame_counter + 1) % 2 ^ 64
      let cp ← push_segment packet_segment st.current_packet 25
      some (true, { st with current_packet := cp, packet_frame_counter := counter })

/-- Function `decode_full_packet`. -/
def decode_full_packet (st : State) (packet_segment : List Nat) : Option (Bool × State) := do
  let ctl ← packet_segment[25]?
  if ctl &&& 0x80 ≠ 0 then
    let packet_size := min ((ctl &&& 0x7F) >>> 2) 25
    let cp ← push_segment packet_segment st.current_packet packet_size
    some (true, { st with current_packet := cp, cout := st.cout ++ cp })
  else
    let frame_number := (ctl &&& 0x7F) >>> 2
    let expected := st.packet_frame_counter
    let st1 : State := { st with packet_frame_counter := (expected + 1) % 2 ^ 64 }
    if frame_number ≠ expected then
      some (false, st1)
    else
      let cp ← push_segment packet_segment st1.current_packet 25
      some (true, { st1 with current_packet := cp })

/-! ## Bit error rate test -/

/-- The loop `for (i = 0; i != n; ++i) { prbs.validate(b & 0x80); b <<= 1; }`. -/
def validate_bits (b : Nat) : Nat → List Bool → List Bool
  | 0, prbs => prbs
  | n + 1, prbs => validate_bits (b * 2 % 256) n (prbs ++ [decide (b &&& 0x80 ≠ 0)])

/-- The outer loop of `decode_bert` over `bert[0]` to `bert[n - 1]`. -/
def validate_bytes (bert : List Nat) : Nat → List Bool → Option (List Bool)
  | 0, prbs => some prbs
  | n + 1, prbs => do
    let p ← validate_bytes bert n prbs
    let b ← bert[n]?
    some (validate_bits b 8 p)

/-- Function `decode_bert`. -/
def decode_bert (st : State) (bert : List Nat) : Option (Bool × State) := do
  let p ← validate_bytes bert 24 st.prbs
  let b ← bert[24]?
  some (true, { st with prbs := validate_bits b 5 p })

/-! ## Dispatch -/

/-- Function `handle_frame`. -/
def handle_frame (codec2_decode : List (List Nat) → List Nat → List Int)
    (st : State) (frame : Frame) (viterbi_cost : Int) : Option (Bool × State) :=
  match frame with
  | Frame.LSF lsf => dump_lsf st lsf
  | Frame.LICH _ => some (true, st)
  | Frame.STREAM stream => demodulate_audio codec2_decode st stream viterbi_cost
  | Frame.BASIC_PACKET packet => decode_packet st packet
  | Frame.FULL_PACKET packet => decode_packet st packet
  | Frame.BERT bert => decode_bert st bert

/-- The switches present on the command line, as `boost::program_options`
reports them for a command line it accepts. -/
structure CommandLine where
  help : Bool
  version : Bool
  invert : Bool
  noise_blanker : Bool
  lsf : Bool
  verbose : Bool
  debug : Bool
  quiet : Bool
deriving DecidableEq, Repr

/-- Structure `Config`. -/
structure Config where
  verbose : Bool
  debug : Bool
  quiet : Bool
  invert : Bool
  lsf : Bool
  noise_blanker : Bool
deriving DecidableEq, Repr

/-- Function `Config::parse`. -/
def Config.parse (cl : CommandLine) : Option Config :=
  let result : Config :=
    { verbose := cl.verbose, debug := cl.debug, quiet := cl.quiet,
      invert := cl.invert, lsf := cl.lsf, noise_blanker := cl.noise_blanker }
  if cl.help then none
  else if cl.version then none
  else if result.debug.toNat + result.verbose.toNat + result.quiet.toNat > 1 then none
  else some result

/-- What `main` does: the exit status, and whether the demodulator was
constructed and fed from standard input. -/
structure Outcome where
  status : Nat
  pipeline_started : Bool
deriving DecidableEq, Repr

/-- Function `main`: `if (!config) return 0;`, otherwise the pipeline runs to
the end of the input and `main` returns `EXIT_SUCCESS`. -/
def main (cl : CommandLine) : Outcome :=
  match Config.parse cl with
  | none => { status := 0, pipeline_started := false }
  | some _ => { status := 0, pipeline_started := true }


/-! ## Functions used to state the packing results -/

/-- The byte the packing loop assembles from the elements of one group. -/
def pack_byte (group : List Nat) : Nat :=
  group.foldl (fun out c => ((out * 2) ||| c) % 256) 0

/-- The bytes of the complete groups of eight elements, in order. -/
def pack_groups : List Nat → List Nat
  | b0 :: b1 :: b2 :: b3 :: b4 :: b5 :: b6 :: b7 :: rest =>
    pack_byte [b0, b1, b2, b3, b4, b5, b6, b7] :: pack_groups rest
  | _ => []

/-! ## Functions used to state the accumulator bound -/

/-- A Codec2 stand-in that decodes every frame to 160 samples of silence. -/
def silent_codec : List (List Nat) → List Nat → List Int :=
  fun _ _ => List.replicate 160 0

/-- State at program start with every switch off. -/
def idle : State :=
  { display_lsf := false, noise_blanker := false, codec2 := [], current_packet := [],
    packet_frame_counter := 0, prbs := [], cout := [] }

/-- The ASCII digits "123456789". -/
def check_payload : List Nat := [0x31, 0x32, 0x33, 0x34, 0x35, 0x36, 0x37, 0x38, 0x39]

/-- A last segment carrying `check_payload` and its CRC `0x906E`, low byte
first: 11 trailing bytes, control byte `0x80 | 11 << 2`. -/
def check_segment : List Nat :=
  check_payload ++ [0x6E, 0x90] ++ List.replicate 14 0 ++ [0xAC]

/-- A non-last segment with index 0. -/
def first_segment : List Nat := List.range 25 ++ [0x00]

/-- A last segment whose control byte `0xE8` carries the count 26. -/
def long_count_segment : List Nat := List.range 25 ++ [0xE8]

/-- A 30-byte link setup frame: DST, SRC, TYPE `0x0004` (packet mode,
ENCAPSULATED), NONCE, CRC. -/
def encapsulated_lsf : List Nat :=
  [1, 2, 3, 4, 5, 6] ++ [7, 8, 9, 10, 11, 12] ++ [0x00, 0x04] ++ List.replicate 14 0
    ++ [0xAB, 0xCD]

/-- A last segment carrying the five bytes "Hello": control byte `0x80 | 5 << 2`. -/
def hello_segment : List Nat :=
  [0x48, 0x65, 0x6C, 0x6C, 0x6F] ++ List.replicate 20 0 ++ [0x94]

/-- An 18-byte stream payload without the end-of-stream flag. -/
def voice_payload : List Nat := List.range 18

/-- Command line `-v -d`. -/
def verbose_debug : CommandLine :=
  { help := false, version := false, invert := false, noise_blanker := false, lsf := false,
    verbose := true, debug := true, quiet := false }

/-- Command line `-l -v`. -/
def lsf_verbose : CommandLine :=
  { help := false, version := false, invert := false, noise_blanker := false, lsf := true,
    verbose := true, debug := false, quiet := false }

theorem xor_bytes (A B C D : Nat) (hB : B < 256) (hD : D < 256) :
    (A * 256 + B) ^^^ (C * 256 + D) = (A ^^^ C) * 256 + (B ^^^ D) := by
  have hB8 : B < 2 ^ 8 := by simpa using hB
  have hD8 : D < 2 ^ 8 := by simpa using hD
  have hX : B ^^^ D < 2 ^ 8 := Nat.xor_lt_two_pow hB8 hD8
  have e1 : A * 256 + B = 2 ^ 8 * A + B := by omega
  have e2 : C * 256 + D = 2 ^ 8 * C + D := by omega
  have e3 : (A ^^^ C) * 256 + (B ^^^ D) = 2 ^ 8 * (A ^^^ C) + (B ^^^ D) := by omega
  rw [e1, e2, e3]
  apply Nat.eq_of_testBit_eq
  intro j
  rw [Nat.testBit_xor, Nat.testBit_mul_pow_two_add A hB8, Nat.testBit_mul_pow_two_add C hD8,
    Nat.testBit_mul_pow_two_add (A ^^^ C) hX]
  by_cases hj : j < 8 <;> simp [hj]

theorem reflect_lt (w x : Nat) : reflect w x < 2 ^ w := by
  induction w generalizing x with
  | zero => simp [reflect]
  | succ w ih =>
    have h1 := ih (x / 2)
    have h2 : x % 2 < 2 := Nat.mod_lt _ (by decide)
    have h3 : x % 2 * 2 ^ w ≤ 1 * 2 ^ w := Nat.mul_le_mul_right _ (by omega)
    simp only [reflect]
    rw [Nat.pow_succ]
    omega

theorem reflect_add (a b x : Nat) :
    reflect (a + b) x = reflect a x * 2 ^ b + reflect b (x / 2 ^ a) := by
  induction a generalizing x with
  | zero => simp [reflect]
  | succ a ih =>
    rw [show a + 1 + b = (a + b) + 1 by omega]
    simp only [reflect]
    rw [ih (x / 2), Nat.div_div_eq_div_mul, Nat.pow_succ, Nat.pow_add]
    rw [show 2 * 2 ^ a = 2 ^ a * 2 by ring]
    ring

theorem reflect_8_low (hi lo : Nat) : reflect 8 (256 * hi + lo) = reflect 8 lo := by
  simp only [reflect]
  omega

theorem reflect_16_bytes (hi lo : Nat) (hlo : lo < 256) :
    reflect 16 (256 * hi + lo) = reflect 8 lo * 256 + reflect 8 hi := by
  rw [show (16 : Nat) = 8 + 8 from rfl, reflect_add, reflect_8_low]
  have : (256 * hi + lo) / 2 ^ 8 = hi := by omega
  rw [this]
  norm_num

theorem crc_shift_lt (r : Nat) : crc_shift 0x1021 r < 65536 := by
  unfold crc_shift
  have h : r * 2 % 2 ^ 16 < 2 ^ 16 := Nat.mod_lt _ (by decide)
  split
  · exact Nat.xor_lt_two_pow h (by decide)
  · exact h

theorem crc_process_byte_lt (refin : Bool) (r b : Nat) :
    crc_process_byte 0x1021 refin r b < 65536 := by
  unfold crc_process_byte
  rw [show (8 : Nat) = 7 + 1 from rfl, Function.iterate_succ_apply']
  exact crc_shift_lt _

theorem crc_process_bytes_lt (refin : Bool) (data : List Nat) (r : Nat) (hr : r < 65536) :
    crc_process_bytes 0x1021 refin r data < 65536 := by
  induction data generalizing r with
  | nil => simpa [crc_process_bytes] using hr
  | cons b rest ih =>
    simp only [crc_process_bytes, List.foldl_cons]
    exact ih _ (crc_process_byte_lt refin r b)

theorem reflect_8_xor (x : Nat) (hx : x < 256) : reflect 8 (reflect 8 x ^^^ 255) = x ^^^ 255 := by
  revert x
  decide!

theorem shift_8_high (lo : Nat) (hlo : lo < 256) :
    (crc_shift 0x1021)^[8] (255 * 256 + lo) = (lo ^^^ 0x1E) * 256 + 0xF0 := by
  revert lo
  decide!

theorem xor_cancel_byte (x k : Nat) : x ^^^ (x ^^^ k) = k := by
  rw [← Nat.xor_assoc, Nat.xor_self, Nat.zero_xor]


theorem xor_pair_byte (lo : Nat) (hlo : lo < 256) : (lo ^^^ 0x1E) ^^^ (lo ^^^ 255) = 0xE1 := by
  revert lo
  decide!

theorem residue_register (r : Nat) (hr : r < 65536) :
    crc_process_byte 0x1021 true
      (crc_process_byte 0x1021 true r (crc_checksum 0xFFFF true r % 256))
      (crc_checksum 0xFFFF true r / 256) = 0x1D0F := by
  obtain ⟨hi, lo, hhi, hlo, rfl⟩ : ∃ hi lo, hi < 256 ∧ lo < 256 ∧ r = hi * 256 + lo :=
    ⟨r / 256, r % 256, by omega, by omega, by omega⟩
  have h8 : ∀ x, reflect 8 x < 256 := fun x => by simpa using reflect_lt 8 x
  have hx : ∀ x, reflect 8 x ^^^ 255 < 256 := fun x =>
    Nat.xor_lt_two_pow (n := 8) (by simpa using h8 x) (by decide)
  have hc : crc_checksum 0xFFFF true (hi * 256 + lo)
      = (reflect 8 lo ^^^ 255) * 256 + (reflect 8 hi ^^^ 255) := by
    simp only [crc_checksum, if_true]
    rw [show hi * 256 + lo = 256 * hi + lo by omega, reflect_16_bytes hi lo hlo,
      show (0xFFFF : Nat) = 255 * 256 + 255 from rfl, xor_bytes _ _ _ _ (h8 hi) (by decide)]
  have hc1 : crc_checksum 0xFFFF true (hi * 256 + lo) % 256 = reflect 8 hi ^^^ 255 := by
    rw [hc]; have := hx hi; omega
  have hc2 : crc_checksum 0xFFFF true (hi * 256 + lo) / 256 = reflect 8 lo ^^^ 255 := by
    rw [hc]; have := hx hi; omega
  rw [hc1, hc2]
  have s1 : crc_process_byte 0x1021 true (hi * 256 + lo) (reflect 8 hi ^^^ 255)
      = (lo ^^^ 0x1E) * 256 + 0xF0 := by
    simp only [crc_process_byte, if_true]
    rw [reflect_8_xor hi hhi]
    have e : (hi ^^^ 255) * 256 = (hi ^^^ 255) * 256 + 0 := (Nat.add_zero _).symm
    rw [e, xor_bytes _ _ _ _ hlo (by decide), xor_cancel_byte, Nat.xor_zero]
    exact shift_8_high lo hlo
  rw [s1]
  simp only [crc_process_byte, if_true]
  rw [reflect_8_xor lo hlo]
  have e : (lo ^^^ 255) * 256 = (lo ^^^ 255) * 256 + 0 := (Nat.add_zero _).symm
  rw [e, xor_bytes _ _ _ _ (by decide) (by decide), xor_pair_byte lo hlo]
  decide

theorem packet_checksum_residue (P : List Nat) :
    packet_checksum (P ++ [packet_checksum P % 256, packet_checksum P / 256]) = 0x0F47 := by
  unfold packet_checksum crc_optimal_16
  have hr := crc_process_bytes_lt true P 0xFFFF (by decide)
  have key := residue_register _ hr
  simp only [crc_process_bytes, List.foldl_append, List.foldl_cons, List.foldl_nil] at key ⊢
  rw [key]
  decide


/-- The published check value of CRC-16/X-25 over the ASCII digits "123456789". -/
theorem packet_checksum_check_value : packet_checksum check_payload = 0x906E := by
  decide!

/-! ## Packet segments: the two branches of `decode_packet` -/

theorem push_segment_eq (seg cp : List Nat) (n : Nat) (h : n ≤ seg.length) :
    push_segment seg cp n = some (cp ++ seg.take n) := by
  induction n with
  | zero => simp [push_segment]
  | succ n ih =>
    have hn : n < seg.length := by omega
    simp only [push_segment, ih (by omega), List.getElem?_eq_getElem hn, Option.bind_eq_bind,
      Option.some_bind]
    rw [List.take_succ, List.getElem?_eq_getElem hn]
    simp

theorem control_index (ctl : Nat) : (ctl &&& 0x7F) >>> 2 = ctl / 4 % 32 := by
  rw [show (0x7F : Nat) = 2 ^ 7 - 1 from rfl, Nat.and_pow_two_sub_one_eq_mod,
    Nat.shiftRight_eq_div_pow]
  omega

theorem decode_packet_last (st : State) (seg : List Nat) (ctl : Nat)
    (hlen : seg.length = 26) (hctl : seg[25]? = some ctl) (hlast : ctl &&& 0x80 ≠ 0) :
    decode_packet st seg =
      some (decide (packet_checksum (st.current_packet ++ seg.take (min (ctl / 4 % 32) 25)) = 0x0f47),
        { st with current_packet := st.current_packet ++ seg.take (min (ctl / 4 % 32) 25) }) := by
  have hle : min (ctl / 4 % 32) 25 ≤ seg.length := by omega
  simp only [decode_packet, hctl, Option.bind_eq_bind, Option.some_bind, control_index,
    push_segment_eq seg st.current_packet _ hle]
  rw [if_pos hlast]
  by_cases hc : packet_checksum (st.current_packet ++ seg.take (min (ctl / 4 % 32) 25)) = 0x0f47
  · simp [hc]
  · simp [hc]

theorem decode_packet_segment (st : State) (seg : List Nat) (ctl : Nat)
    (hlen : seg.length = 26) (hctl : seg[25]? = some ctl) (hnot : ctl &&& 0x80 = 0) :
    decode_packet st seg =
      if ctl / 4 % 32 = st.packet_frame_counter then
        some (true, { st with current_packet := st.current_packet ++ seg.take 25,
                              packet_frame_counter := st.packet_frame_counter + 1 })
      else some (false, st) := by
  have hle : 25 ≤ seg.length := by omega
  simp only [decode_packet, hctl, Option.bind_eq_bind, Option.some_bind, control_index,
    push_segment_eq seg st.current_packet _ hle]
  rw [if_neg (by simp [hnot])]
  by_cases hn : ctl / 4 % 32 = st.packet_frame_counter
  · have hlt : st.packet_frame_counter < 32 := by rw [← hn]; omega
    simp only [hn, ne_eq, not_true_eq_false, if_false, if_true]
    rw [Nat.mod_eq_of_lt (by omega)]
  · simp [hn]


/-! ## Claims about `decode_packet` -/

/-- C1: when the accumulator, after the trailing bytes of a last segment have
been appended, is a payload `P` followed by the low and the high byte of the
CRC of `P` (polynomial 0x1021, init 0xFFFF, reflected in and out, xor-out
0xFFFF), the checksum `decode_packet` computes over it is 0x0F47 and
`decode_packet` returns true. -/
theorem decode_packet_good_crc (st : State) (seg P : List Nat) (ctl : Nat)
    (hlen : seg.length = 26) (hctl : seg[25]? = some ctl) (hlast : ctl &&& 0x80 ≠ 0)
    (hcp : st.current_packet ++ seg.take (min (ctl / 4 % 32) 25)
      = P ++ [crc_optimal_16 0x1021 0xFFFF 0xFFFF true true P % 256,
              crc_optimal_16 0x1021 0xFFFF 0xFFFF true true P / 256]) :
    packet_checksum (P ++ [crc_optimal_16 0x1021 0xFFFF 0xFFFF true true P % 256,
                           crc_optimal_16 0x1021 0xFFFF 0xFFFF true true P / 256]) = 0x0F47 ∧
    decode_packet st seg = some (true,
      { st with current_packet :=
          P ++ [crc_optimal_16 0x1021 0xFFFF 0xFFFF true true P % 256,
                crc_optimal_16 0x1021 0xFFFF 0xFFFF true true P / 256] }) := by
  have hres := packet_checksum_residue P
  unfold packet_checksum at hres
  refine ⟨hres, ?_⟩
  rw [decode_packet_last st seg ctl hlen hctl hlast, hcp]
  simp [packet_checksum, hres]

theorem decode_packet_good_crc_witness :
    packet_checksum (check_payload ++
      [crc_optimal_16 0x1021 0xFFFF 0xFFFF true true check_payload % 256,
       crc_optimal_16 0x1021 0xFFFF 0xFFFF true true check_payload / 256]) = 0x0F47 ∧
    decode_packet idle check_segment = some (true,
      { idle with current_packet := check_payload ++
          [crc_optimal_16 0x1021 0xFFFF 0xFFFF true true check_payload % 256,
           crc_optimal_16 0x1021 0xFFFF 0xFFFF true true check_payload / 256] }) :=
  decode_packet_good_crc idle check_segment check_payload 0xAC (by decide) (by decide)
    (by decide) (by decide!)

/-- C4: for a segment that is not the last one, with index `n` in bits 2..6 of
byte 25, `decode_packet` returns true exactly when `n` equals
`packet_frame_counter`; on true the accumulator has grown by segment bytes
0..24 in order and the counter by one; on false both are unchanged. -/
theorem decode_packet_sequence (st : State) (seg : List Nat) (ctl : Nat)
    (hlen : seg.length = 26) (hctl : seg[25]? = some ctl) (hnot : ctl &&& 0x80 = 0) :
    ∃ b st1, decode_packet st seg = some (b, st1) ∧
      (b = true ↔ ctl / 4 % 32 = st.packet_frame_counter) ∧
      (b = true → st1.current_packet = st.current_packet ++ seg.take 25 ∧
        st1.packet_frame_counter = st.packet_frame_counter + 1) ∧
      (b = false → st1.current_packet = st.current_packet ∧
        st1.packet_frame_counter = st.packet_frame_counter) := by
  rw [decode_packet_segment st seg ctl hlen hctl hnot]
  by_cases hn : ctl / 4 % 32 = st.packet_frame_counter
  · rw [if_pos hn]
    exact ⟨true, _, rfl, by simp [hn], by simp, by simp⟩
  · rw [if_neg hn]
    exact ⟨false, _, rfl, by simp [hn], by simp, by simp⟩

theorem decode_packet_sequence_witness :
    ∃ b st1, decode_packet idle first_segment = some (b, st1) ∧
      (b = true ↔ 0x00 / 4 % 32 = idle.packet_frame_counter) ∧
      (b = true → st1.current_packet = idle.current_packet ++ first_segment.take 25 ∧
        st1.packet_frame_counter = idle.packet_frame_counter + 1) ∧
      (b = false → st1.current_packet = idle.current_packet ∧
        st1.packet_frame_counter = idle.packet_frame_counter) :=
  decode_packet_sequence idle first_segment 0x00 (by decide) (by decide) (by decide)

/-- C5 (as stated, refuted): a last segment whose control byte carries the
count 26 makes `decode_packet` append 25 bytes, not the first 26. -/
theorem decode_packet_count_clamped :
    long_count_segment[25]? = some 0xE8 ∧ 0xE8 &&& 0x80 ≠ 0 ∧ 0xE8 / 4 % 32 = 26 ∧
    ∃ b st1, decode_packet idle long_count_segment = some (b, st1) ∧
      st1.current_packet = long_count_segment.take 25 ∧
      st1.current_packet ≠ idle.current_packet ++ long_count_segment.take 26 := by
  refine ⟨by decide, by decide, by decide, _, _,
    decode_packet_last idle long_count_segment 0xE8 (by decide) (by decide) (by decide), ?_, ?_⟩
  · decide
  · decide

/-- C5 (amended): for a last segment `decode_packet` appends exactly the first
`min count 25` bytes of the segment, `count` being bits 2..6 of byte 25, and
the CRC is checked over the accumulator with these bytes appended;
`packet_frame_counter` is left unchanged and has no influence on the result. -/
theorem decode_packet_trailing (st : State) (seg : List Nat) (ctl : Nat)
    (hlen : seg.length = 26) (hctl : seg[25]? = some ctl) (hlast : ctl &&& 0x80 ≠ 0) :
    ∃ b st1, decode_packet st seg = some (b, st1) ∧
      st1.current_packet = st.current_packet ++ seg.take (min (ctl / 4 % 32) 25) ∧
      (b = true ↔ packet_checksum st1.current_packet = 0x0f47) ∧
      st1.packet_frame_counter = st.packet_frame_counter ∧
      ∀ k, decode_packet { st with packet_frame_counter := k } seg
        = some (b, { st1 with packet_frame_counter := k }) := by
  refine ⟨_, _, decode_packet_last st seg ctl hlen hctl hlast, rfl, by simp, rfl, ?_⟩
  intro k
  rw [decode_packet_last _ seg ctl hlen hctl hlast]

theorem decode_packet_trailing_witness :
    ∃ b st1, decode_packet idle long_count_segment = some (b, st1) ∧
      st1.current_packet = idle.current_packet ++ long_count_segment.take (min (0xE8 / 4 % 32) 25) ∧
      (b = true ↔ packet_checksum st1.current_packet = 0x0f47) ∧
      st1.packet_frame_counter = idle.packet_frame_counter ∧
      ∀ k, decode_packet { idle with packet_frame_counter := k } long_count_segment
        = some (b, { st1 with packet_frame_counter := k }) :=
  decode_packet_trailing idle long_count_segment 0xE8 (by decide) (by decide) (by decide)

/-! ## Claims about `to_packet` and `append_packet` -/

theorem pack_loop_groups (inp : List Nat) (res : List Nat) :
    (inp.foldl pack_step { result := res, out := 0, b := 0 }).result = res ++ pack_groups inp := by
  induction inp using pack_groups.induct generalizing res with
  | case1 b0 b1 b2 b3 b4 b5 b6 b7 rest ih =>
    simp only [List.foldl_cons, pack_step, pack_groups]
    simp only [Nat.zero_add, Nat.reduceAdd, Nat.reduceEqDiff, if_false, if_true]
    rw [ih]
    simp [pack_byte]
  | case2 l h =>
    match l, h with
    | [], _ => simp [pack_groups]
    | [_], _ => simp [pack_groups, pack_step]
    | [_, _], _ => simp [pack_groups, pack_step]
    | [_, _, _], _ => simp [pack_groups, pack_step]
    | [_, _, _, _], _ => simp [pack_groups, pack_step]
    | [_, _, _, _, _], _ => simp [pack_groups, pack_step]
    | [_, _, _, _, _, _], _ => simp [pack_groups, pack_step]
    | [_, _, _, _, _, _, _], _ => simp [pack_groups, pack_step]
    | b0 :: b1 :: b2 :: b3 :: b4 :: b5 :: b6 :: b7 :: rest, h =>
      exact absurd rfl (h b0 b1 b2 b3 b4 b5 b6 b7 rest)

theorem pack_groups_length (inp : List Nat) : (pack_groups inp).length = inp.length / 8 := by
  induction inp using pack_groups.induct with
  | case1 b0 b1 b2 b3 b4 b5 b6 b7 rest ih =>
    simp only [pack_groups, List.length_cons, ih]
    omega
  | case2 l h =>
    match l, h with
    | [], _ => simp [pack_groups]
    | [_], _ => simp [pack_groups]
    | [_, _], _ => simp [pack_groups]
    | [_, _, _], _ => simp [pack_groups]
    | [_, _, _, _], _ => simp [pack_groups]
    | [_, _, _, _, _], _ => simp [pack_groups]
    | [_, _, _, _, _, _], _ => simp [pack_groups]
    | [_, _, _, _, _, _, _], _ => simp [pack_groups]
    | b0 :: b1 :: b2 :: b3 :: b4 :: b5 :: b6 :: b7 :: rest, h =>
      exact absurd rfl (h b0 b1 b2 b3 b4 b5 b6 b7 rest)

theorem shift_or_bit (out c : Nat) (hc : c = 0 ∨ c = 1) (hout : out < 128) :
    ((out * 2) ||| c) % 256 = out * 2 + c := by
  have h := Nat.mul_add_lt_is_or (i := 1) (b := c) (by rcases hc with h | h <;> simp [h]) out
  rw [show out * 2 = 2 ^ 1 * out by omega, ← h]
  apply Nat.mod_eq_of_lt
  rcases hc with h | h <;> omega

theorem pack_byte_value (b0 b1 b2 b3 b4 b5 b6 b7 : Nat)
    (h0 : b0 = 0 ∨ b0 = 1) (h1 : b1 = 0 ∨ b1 = 1) (h2 : b2 = 0 ∨ b2 = 1) (h3 : b3 = 0 ∨ b3 = 1)
    (h4 : b4 = 0 ∨ b4 = 1) (h5 : b5 = 0 ∨ b5 = 1) (h6 : b6 = 0 ∨ b6 = 1) (h7 : b7 = 0 ∨ b7 = 1) :
    pack_byte [b0, b1, b2, b3, b4, b5, b6, b7]
      = 128 * b0 + 64 * b1 + 32 * b2 + 16 * b3 + 8 * b4 + 4 * b5 + 2 * b6 + b7 := by
  have l0 : b0 ≤ 1 := by omega
  have l1 : b1 ≤ 1 := by omega
  have l2 : b2 ≤ 1 := by omega
  have l3 : b3 ≤ 1 := by omega
  have l4 : b4 ≤ 1 := by omega
  have l5 : b5 ≤ 1 := by omega
  have l6 : b6 ≤ 1 := by omega
  simp only [pack_byte, List.foldl_cons, List.foldl_nil]
  rw [shift_or_bit 0 b0 h0 (by decide)]
  rw [shift_or_bit _ b1 h1 (by clear h0 h1 h2 h3 h4 h5 h6 h7; omega)]
  rw [shift_or_bit _ b2 h2 (by clear h0 h1 h2 h3 h4 h5 h6 h7; omega)]
  rw [shift_or_bit _ b3 h3 (by clear h0 h1 h2 h3 h4 h5 h6 h7; omega)]
  rw [shift_or_bit _ b4 h4 (by clear h0 h1 h2 h3 h4 h5 h6 h7; omega)]
  rw [shift_or_bit _ b5 h5 (by clear h0 h1 h2 h3 h4 h5 h6 h7; omega)]
  rw [shift_or_bit _ b6 h6 (by clear h0 h1 h2 h3 h4 h5 h6 h7; omega)]
  rw [shift_or_bit _ b7 h7 (by clear h0 h1 h2 h3 h4 h5 h6 h7; omega)]
  clear h0 h1 h2 h3 h4 h5 h6 h7
  omega

theorem pack_byte_bit (b0 b1 b2 b3 b4 b5 b6 b7 k : Nat)
    (h0 : b0 = 0 ∨ b0 = 1) (h1 : b1 = 0 ∨ b1 = 1) (h2 : b2 = 0 ∨ b2 = 1) (h3 : b3 = 0 ∨ b3 = 1)
    (h4 : b4 = 0 ∨ b4 = 1) (h5 : b5 = 0 ∨ b5 = 1) (h6 : b6 = 0 ∨ b6 = 1) (h7 : b7 = 0 ∨ b7 = 1)
    (hk : k < 8) :
    (pack_byte [b0, b1, b2, b3, b4, b5, b6, b7]).testBit (7 - k)
      = decide ([b0, b1, b2, b3, b4, b5, b6, b7].getD k 0 = 1) := by
  rw [pack_byte_value b0 b1 b2 b3 b4 b5 b6 b7 h0 h1 h2 h3 h4 h5 h6 h7, Nat.testBit_to_div_mod]
  have l0 : b0 ≤ 1 := by omega
  have l1 : b1 ≤ 1 := by omega
  have l2 : b2 ≤ 1 := by omega
  have l3 : b3 ≤ 1 := by omega
  have l4 : b4 ≤ 1 := by omega
  have l5 : b5 ≤ 1 := by omega
  have l6 : b6 ≤ 1 := by omega
  have l7 : b7 ≤ 1 := by omega
  clear h0 h1 h2 h3 h4 h5 h6 h7
  congr 1
  apply propext
  interval_cases k <;> simp <;> omega

theorem pack_byte_lt (group : List Nat) : pack_byte group < 256 := by
  unfold pack_byte
  induction group using List.reverseRecOn with
  | nil => simp
  | append_singleton l a _ =>
    rw [List.foldl_append]
    exact Nat.mod_lt _ (by decide)


theorem pack_groups_bit (inp : List Nat) (hbits : ∀ c ∈ inp, c = 0 ∨ c = 1) (j k : Nat)
    (hj : j < inp.length / 8) (hk : k < 8) :
    ((pack_groups inp).getD j 0).testBit (7 - k) = decide (inp.getD (8 * j + k) 0 = 1) := by
  induction inp using pack_groups.induct generalizing j with
  | case1 b0 b1 b2 b3 b4 b5 b6 b7 rest ih =>
    have hb : ∀ c ∈ [b0, b1, b2, b3, b4, b5, b6, b7], c = 0 ∨ c = 1 := by
      intro c hc
      apply hbits
      simp only [List.mem_cons, List.mem_singleton, List.not_mem_nil, or_false] at hc ⊢
      tauto
    cases j with
    | zero =>
      simp only [pack_groups, List.getD_cons_zero, Nat.mul_zero, Nat.zero_add]
      rw [pack_byte_bit b0 b1 b2 b3 b4 b5 b6 b7 k (hb b0 (by simp)) (hb b1 (by simp))
        (hb b2 (by simp)) (hb b3 (by simp)) (hb b4 (by simp)) (hb b5 (by simp))
        (hb b6 (by simp)) (hb b7 (by simp)) hk]
      interval_cases k <;> rfl
    | succ j =>
      have hrest : ∀ c ∈ rest, c = 0 ∨ c = 1 := by
        intro c hc
        apply hbits
        simp [hc]
      have hj2 : j < rest.length / 8 := by
        simp only [List.length_cons] at hj
        omega
      have e : 8 * (j + 1) + k = (8 * j + k) + 1 + 1 + 1 + 1 + 1 + 1 + 1 + 1 := by omega
      simp only [pack_groups, List.getD_cons_succ, e]
      exact ih hrest j hj2
  | case2 l h =>
    have hlen := pack_groups_length l
    have hnil : pack_groups l = [] := by
      unfold pack_groups
      split
      · exact absurd rfl (h _ _ _ _ _ _ _ _ _)
      · rfl
    rw [hnil] at hlen
    simp only [List.length_nil] at hlen
    omega

theorem pack_groups_lt (inp : List Nat) (j : Nat) : (pack_groups inp).getD j 0 < 256 := by
  induction inp using pack_groups.induct generalizing j with
  | case1 b0 b1 b2 b3 b4 b5 b6 b7 rest ih =>
    cases j with
    | zero => simpa [pack_groups] using pack_byte_lt _
    | succ j => simpa [pack_groups] using ih j
  | case2 l h =>
    have hnil : pack_groups l = [] := by
      unfold pack_groups
      split
      · exact absurd rfl (h _ _ _ _ _ _ _ _ _)
      · rfl
    simp [hnil]

/-- C2: for an array of bits `to_packet` returns `N / 8` bytes, byte `j`
holding `in[8 j + k]` at bit position `7 - k` for `k = 0..7`; `append_packet`
keeps the previous contents of `result` and appends the bytes of `to_packet`. -/
theorem to_packet_bits (inp : List Nat) (hbits : ∀ c ∈ inp, c = 0 ∨ c = 1) :
    (to_packet inp).length = inp.length / 8 ∧
    (∀ j, j < inp.length / 8 → (to_packet inp).getD j 0 < 256 ∧
      ∀ k, k < 8 →
        ((to_packet inp).getD j 0).testBit (7 - k) = decide (inp.getD (8 * j + k) 0 = 1)) ∧
    ∀ result, append_packet result inp = result ++ to_packet inp := by
  have hto : to_packet inp = pack_groups inp := by
    unfold to_packet
    rw [pack_loop_groups]
    simp
  refine ⟨?_, ?_, ?_⟩
  · rw [hto, pack_groups_length]
  · intro j hj
    rw [hto]
    exact ⟨pack_groups_lt inp j, fun k hk => pack_groups_bit inp hbits j k hj hk⟩
  · intro result
    rw [hto]
    unfold append_packet
    rw [pack_loop_groups]

theorem to_packet_bits_witness :
    (to_packet [1, 0, 0, 0, 0, 0, 0, 1, 1, 1]).length = [1, 0, 0, 0, 0, 0, 0, 1, 1, 1].length / 8 ∧
    (∀ j, j < [1, 0, 0, 0, 0, 0, 0, 1, 1, 1].length / 8 →
      (to_packet [1, 0, 0, 0, 0, 0, 0, 1, 1, 1]).getD j 0 < 256 ∧
      ∀ k, k < 8 →
        ((to_packet [1, 0, 0, 0, 0, 0, 0, 1, 1, 1]).getD j 0).testBit (7 - k)
          = decide ([1, 0, 0, 0, 0, 0, 0, 1, 1, 1].getD (8 * j + k) 0 = 1)) ∧
    ∀ result, append_packet result [1, 0, 0, 0, 0, 0, 0, 1, 1, 1]
      = result ++ to_packet [1, 0, 0, 0, 0, 0, 0, 1, 1, 1] :=
  to_packet_bits [1, 0, 0, 0, 0, 0, 0, 1, 1, 1] (by decide)

/-! ## Claims about `dump_lsf` -/

theorem dump_lsf_short (st : State) (lsf : List Nat) (hlen : lsf.length ≤ 111) :
    dump_lsf st lsf = none := by
  have h : lsf[111]? = none := List.getElem?_eq_none (by omega)
  simp only [dump_lsf, h, Option.bind_eq_bind, Option.none_bind, Option.bind_none, ite_self]

theorem lsf_summary_long (lsf : List Nat) (hlen : 30 ≤ lsf.length) : lsf_summary lsf = some () := by
  unfold lsf_summary
  rw [List.getElem?_eq_getElem (by omega)]

theorem dump_lsf_bit_frame (st : State) (lsf : List Nat) (hlen : lsf.length = 240)
    (h111 : lsf[111]? = some 0) (h109 : lsf[109]? = some 1) (h110 : lsf[110]? = some 0) :
    dump_lsf st lsf = some (true,
      { st with current_packet := to_packet lsf, packet_frame_counter := 0 }) := by
  simp only [dump_lsf, lsf_summary_long lsf (by omega), ite_self, h111, h109, h110,
    Option.bind_eq_bind, Option.some_bind, if_true]
  rfl

theorem dump_lsf_thirty_bytes (st : State) (lsf : List Nat) (hlen : lsf.length = 30) :
    dump_lsf st lsf = none ∧ (append_packet [] lsf).length = 3 := by
  refine ⟨dump_lsf_short st lsf (by omega), ?_⟩
  unfold append_packet
  rw [pack_loop_groups, List.nil_append, pack_groups_length, hlen]

/-- C3 (the code at the failing input): for the 30-byte frame
`encapsulated_lsf` the reads `lsf[111]`, `lsf[109]`, `lsf[110]` of `dump_lsf`
fall outside the array, and `append_packet` packs the 30 bytes as if they were
bits into 3 bytes. -/
theorem dump_lsf_byte_frame :
    encapsulated_lsf.length = 30 ∧ encapsulated_lsf[111]? = none ∧
    dump_lsf idle encapsulated_lsf = none ∧
    append_packet [] encapsulated_lsf = [254, 240, 0] := by
  refine ⟨by decide, by decide, dump_lsf_short idle encapsulated_lsf (by decide), by decide⟩

/-! ## Claims about the dispatch of packet frames -/

theorem handle_frame_full_as_basic (codec2_decode : List (List Nat) → List Nat → List Int)
    (st : State) (packet : List Nat) (cost : Int) :
    handle_frame codec2_decode st (Frame.FULL_PACKET packet) cost
      = handle_frame codec2_decode st (Frame.BASIC_PACKET packet) cost :=
  rfl

theorem decode_packet_cout (st : State) (packet : List Nat) (b : Bool) (st1 : State)
    (h : decode_packet st packet = some (b, st1)) : st1.cout = st.cout := by
  unfold decode_packet at h
  cases hctl : packet[25]? with
  | none => simp [hctl] at h
  | some ctl =>
    simp only [hctl, Option.bind_eq_bind, Option.some_bind] at h
    split at h
    · cases hp : push_segment packet st.current_packet (min ((ctl &&& 0x7F) >>> 2) 25) with
      | none => simp [hp] at h
      | some cp =>
        simp only [hp, Option.some_bind] at h
        split at h <;> simp only [Option.some.injEq, Prod.mk.injEq] at h <;> rw [← h.2]
    · split at h
      · simp only [Option.some.injEq, Prod.mk.injEq] at h
        rw [← h.2]
      · cases hp : push_segment packet st.current_packet 25 with
        | none => simp [hp] at h
        | some cp =>
          simp only [hp, Option.some_bind, Option.some.injEq, Prod.mk.injEq] at h
          rw [← h.2]

/-- C6 (the code at the failing input): a FULL_PACKET frame carrying the last
segment `hello_segment` is handled by `decode_packet`: the CRC check fails,
`handle_frame` returns false and nothing is written to `std::cout`, whereas
`decode_full_packet` on the same segment writes the payload and returns true. -/
theorem handle_frame_full_packet_last :
    handle_frame silent_codec idle (Frame.FULL_PACKET hello_segment) 0
      = some (false, { idle with current_packet := [0x48, 0x65, 0x6C, 0x6C, 0x6F] }) ∧
    decode_full_packet idle hello_segment
      = some (true, { idle with current_packet := [0x48, 0x65, 0x6C, 0x6C, 0x6F],
                                cout := [0x48, 0x65, 0x6C, 0x6C, 0x6F] }) := by
  constructor
  · show decode_packet idle hello_segment = _
    rw [decode_packet_last idle hello_segment 0x94 (by decide) (by decide) (by decide)]
    decide!
  · decide

/-! ## Claims about `demodulate_audio` -/

theorem pcm_bytes_silence (n : Nat) :
    pcm_bytes (List.replicate n 0) = List.replicate (2 * n) 0 := by
  induction n with
  | zero => rfl
  | succ n ih =>
    rw [List.replicate_succ, show 2 * (n + 1) = 2 * n + 1 + 1 by omega, List.replicate_succ,
      List.replicate_succ]
    simp [pcm_bytes, ih]

theorem demodulate_audio_eq (codec2_decode : List (List Nat) → List Nat → List Int)
    (st : State) (audio : List Nat) (cost : Int) (a0 : Nat)
    (hlen : 18 ≤ audio.length) (h0 : audio[0]? = some a0) :
    demodulate_audio codec2_decode st audio cost =
      some (decide ¬ (cost < 70 ∧ a0 &&& 0x80 ≠ 0),
        if st.noise_blanker = true ∧ cost > 80 then
          { st with cout := st.cout ++ List.replicate 320 0 ++ List.replicate 320 0 }
        else
          { st with
            codec2 := st.codec2 ++ [(audio.drop 2).take 8, (audio.drop 10).take 8],
            cout := st.cout ++ pcm_bytes (codec2_decode st.codec2 ((audio.drop 2).take 8))
              ++ pcm_bytes (codec2_decode (st.codec2 ++ [(audio.drop 2).take 8])
                  ((audio.drop 10).take 8)) }) := by
  have f1 : frame_at audio 2 8 = some ((audio.drop 2).take 8) := by
    unfold frame_at
    rw [if_pos (by omega)]
  have f2 : frame_at audio 10 8 = some ((audio.drop 10).take 8) := by
    unfold frame_at
    rw [if_pos (by omega)]
  have hs : pcm_bytes (List.replicate 160 0) = List.replicate 320 0 := pcm_bytes_silence 160
  simp only [demodulate_audio, h0, f1, f2, hs, Option.bind_eq_bind, Option.some_bind]
  have hbool : (if cost < 70 ∧ a0 &&& 0x80 ≠ 0 then false else true)
      = decide ¬ (cost < 70 ∧ a0 &&& 0x80 ≠ 0) := by
    by_cases he : cost < 70 ∧ a0 &&& 0x80 ≠ 0
    · rw [if_pos he]
      exact (decide_eq_false (fun h => h he)).symm
    · rw [if_neg he]
      exact (decide_eq_true he).symm
  rw [hbool]
  by_cases hb : st.noise_blanker = true ∧ cost > 80
  · rw [if_pos hb, if_pos hb]
  · rw [if_neg hb, if_neg hb]

/-- C8: `demodulate_audio` returns false exactly when `viterbi_cost < 70` and
bit 7 of payload byte 0 is set; otherwise it returns true; unless blanked the
two Codec2 frames are decoded; the return value is the same whatever the
`noise_blanker` and `display_lsf` flags are. -/
theorem demodulate_audio_end_of_stream
    (codec2_decode : List (List Nat) → List Nat → List Int)
    (st : State) (audio : List Nat) (cost : Int) (a0 : Nat)
    (hlen : 18 ≤ audio.length) (h0 : audio[0]? = some a0) :
    ∃ b st1, demodulate_audio codec2_decode st audio cost = some (b, st1) ∧
      (b = false ↔ (cost < 70 ∧ a0 &&& 0x80 ≠ 0)) ∧
      (b = true ↔ ¬ (cost < 70 ∧ a0 &&& 0x80 ≠ 0)) ∧
      (¬ (st.noise_blanker = true ∧ cost > 80) →
        st1.codec2 = st.codec2 ++ [(audio.drop 2).take 8, (audio.drop 10).take 8]) ∧
      ∀ blanker display, ∃ st2,
        demodulate_audio codec2_decode
          { st with noise_blanker := blanker, display_lsf := display } audio cost
          = some (b, st2) := by
  refine ⟨_, _, demodulate_audio_eq codec2_decode st audio cost a0 hlen h0, ?_, ?_, ?_, ?_⟩
  · by_cases he : cost < 70 ∧ a0 &&& 0x80 ≠ 0
    · simp [he]
    · simp [he]
  · by_cases he : cost < 70 ∧ a0 &&& 0x80 ≠ 0
    · simp [he]
    · simp [he]
  · intro hb
    rw [if_neg hb]
  · intro blanker display
    exact ⟨_, demodulate_audio_eq codec2_decode _ audio cost a0 hlen h0⟩

theorem demodulate_audio_end_of_stream_witness :
    ∃ b st1, demodulate_audio silent_codec idle (0x80 :: voice_payload) 10 = some (b, st1) ∧
      (b = false ↔ ((10 : Int) < 70 ∧ 0x80 &&& 0x80 ≠ 0)) ∧
      (b = true ↔ ¬ ((10 : Int) < 70 ∧ 0x80 &&& 0x80 ≠ 0)) ∧
      (¬ (idle.noise_blanker = true ∧ (10 : Int) > 80) →
        st1.codec2 = idle.codec2 ++ [((0x80 :: voice_payload).drop 2).take 8,
          ((0x80 :: voice_payload).drop 10).take 8]) ∧
      ∀ blanker display, ∃ st2,
        demodulate_audio silent_codec
          { idle with noise_blanker := blanker, display_lsf := display }
          (0x80 :: voice_payload) 10 = some (b, st2) :=
  demodulate_audio_end_of_stream silent_codec idle (0x80 :: voice_payload) 10 0x80
    (by decide) (by decide)

/-! ## Claims about `Config::parse` and `main` -/

/-- C9 (as stated, refuted): with both `-v` and `-d` given `Config::parse`
yields no configuration and `main` returns 0. -/
theorem main_two_levels_status :
    verbose_debug.verbose.toNat + verbose_debug.debug.toNat + verbose_debug.quiet.toNat > 1 ∧
    Config.parse verbose_debug = none ∧ (main verbose_debug).status = 0 ∧
    ¬ (main verbose_debug).status ≠ 0 := by
  decide

/-- C9 (amended): when more than one of verbose, debug and quiet is set,
`Config::parse` yields no configuration and `main` returns 0 without starting
the pipeline; when at most one is set and neither help nor version is
requested, `Config::parse` yields the configuration with exactly the switches
given. -/
theorem parse_levels (cl : CommandLine) :
    (cl.verbose.toNat + cl.debug.toNat + cl.quiet.toNat > 1 →
      Config.parse cl = none ∧ main cl = { status := 0, pipeline_started := false }) ∧
    (cl.verbose.toNat + cl.debug.toNat + cl.quiet.toNat ≤ 1 → cl.help = false →
      cl.version = false →
      Config.parse cl = some
        { verbose := cl.verbose, debug := cl.debug, quiet := cl.quiet,
          invert := cl.invert, lsf := cl.lsf, noise_blanker := cl.noise_blanker }) := by
  constructor
  · intro h
    have hp : Config.parse cl = none := by
      unfold Config.parse
      simp only []
      split_ifs with h1 h2 h3
      · rfl
      · rfl
      · rfl
      · omega
    exact ⟨hp, by unfold main; rw [hp]⟩
  · intro h hh hv
    unfold Config.parse
    simp only [hh, hv]
    rw [if_neg (by simp), if_neg (by simp), if_neg (by omega)]

theorem parse_levels_witness :
    (Config.parse verbose_debug = none ∧
      main verbose_debug = { status := 0, pipeline_started := false }) ∧
    Config.parse lsf_verbose = some
      { verbose := true, debug := false, quiet := false,
        invert := false, lsf := true, noise_blanker := false } :=
  ⟨(parse_levels verbose_debug).1 (by decide),
    (parse_levels lsf_verbose).2 (by decide) rfl rfl⟩

/-! ## Bound on the packet accumulator -/

end M17
